import Mathlib

/-!
Verification of the Local-File-Organizer specification against its code.

The development shallowly embeds the parts of the repository that the
claims are about:

* `Frontend` — the React frontend (`src/frontend/src`): the `DocumentItem`
  interface, the triage filters of `App.tsx`, the `ConfidenceIndicator`
  star widget, and the bulk-action dispatch of `BulkActions.tsx` together
  with `RejectOptionsModal.tsx`.
* `TaxEditor` — the taxonomy-editor script (`src/unnamed/part_003`):
  `validateTaxonomy`, `createDomain`, `createScope`, `editNodeTitle`,
  `deleteNode`.
* `SpecModel` — the backend core (classification orchestrator, review
  state machine, bulk coordinator, migration engine).  That code is not
  part of the repository snapshot (only its HTTP callers are), so it is
  modelled from the specification, as marked on each definition.

JavaScript numbers are modelled as rationals, JavaScript strings as Lean
strings, and absent / nullable fields as `Option`.
-/

namespace Frontend

/-- Mirror of the TypeScript interface `DocumentItem`
(`src/frontend/src/types/index.ts`).  Only fields the embedded code reads
are kept; `confidence` is optional because the code defends against a
missing value with `item.confidence || 0`. -/
structure DocumentItem where
  id : String
  source_path : String
  original_filename : String
  proposed_workspace : String
  proposed_subpath : String
  proposed_filename : String
  confidence : Option ℚ
  status : String
deriving DecidableEq, Repr

/-- JavaScript `item.confidence || 0`: a missing confidence is read as 0
(and `0 || 0` is 0, so on present values this is the identity). -/
def confOr0 (it : DocumentItem) : ℚ := it.confidence.getD 0

/-- Predicate of the `readyToApprove` filter in `App.tsx` line 130:
`item.status === 'approved' || (item.status === 'pending' && (item.confidence || 0) >= 90)`. -/
def readyPred (it : DocumentItem) : Bool :=
  it.status == "approved" || (it.status == "pending" && decide (90 ≤ confOr0 it))

/-- Predicate of the `needsReview` filter in `App.tsx` line 131:
`item.status === 'pending' && (item.confidence || 0) < 90`. -/
def needsReviewPred (it : DocumentItem) : Bool :=
  it.status == "pending" && decide (confOr0 it < 90)

/-- The `readyToApprove` list of `App.tsx` line 130. -/
def readyToApprove (items : List DocumentItem) : List DocumentItem :=
  items.filter readyPred

/-- The `needsReview` list of `App.tsx` line 131. -/
def needsReview (items : List DocumentItem) : List DocumentItem :=
  items.filter needsReviewPred

/-- The `filteredItems` computation of `App.tsx` lines 115-128, as a
function of the current step and the selected review view. -/
def filteredItems (step reviewView : String) (items : List DocumentItem) :
    List DocumentItem :=
  items.filter fun it =>
    if step == "classify" then it.status == "pending"
    else if step == "review" then
      if reviewView == "needs_review" then needsReviewPred it
      else readyPred it
    else true

/-- Count shown on the Ready to Approve tab (`App.tsx` line 284). -/
def readyCountShown (items : List DocumentItem) : Nat :=
  (readyToApprove items).length

/-- Count shown on the Needs Review tab (`App.tsx` line 275). -/
def needsReviewCountShown (items : List DocumentItem) : Nat :=
  (needsReview items).length

/-- The three options offered by `RejectOptionsModal.tsx`:
`onConfirm: (action: 'reject' | 'reject_and_move' | 'delete') => void`. -/
inductive RejectChoice where
  | reject
  | rejectAndMove
  | deleteFiles
deriving DecidableEq, Repr

/-- Action string each confirm button of the modal passes to `onConfirm`
(`RejectOptionsModal.tsx` lines 21, 29, 37). -/
def rejectChoiceAction : RejectChoice → String
  | .reject => "reject"
  | .rejectAndMove => "reject_and_move"
  | .deleteFiles => "delete"

/-- The confirm buttons the modal renders, in order: Mark as Rejected,
Move to Rejected Folder, Delete Files. -/
def rejectModalChoices : List RejectChoice :=
  [.reject, .rejectAndMove, .deleteFiles]

/-- Local state of `BulkActions.tsx`: whether the reject modal is open. -/
structure BulkActionsState where
  isRejectModalOpen : Bool
deriving DecidableEq, Repr

/-- Embedding of `handleRejectConfirm` in `BulkActions.tsx` lines 22-25.
The first component is the list of `onBulkAction` dispatches the handler
performs (in order), the second the resulting component state. -/
def handleRejectConfirm (_s : BulkActionsState) (c : RejectChoice) :
    List String × BulkActionsState :=
  ([rejectChoiceAction c], { isRejectModalOpen := false })

/-- Embedding of `handleBulkAction` in `BulkActions.tsx` lines 14-20: a
reject click opens the modal without dispatching; anything else is
dispatched directly. -/
def handleBulkAction (s : BulkActionsState) (action : String) :
    List String × BulkActionsState :=
  if action == "reject" then ([], { isRejectModalOpen := true })
  else ([action], s)

/-- Embedding of the `stars` array of `ConfidenceIndicator`
(`src/frontend/src/types/index.ts` line 44):
`Array.from({ length: 5 }, (_, i) => i < confidence)`. -/
def stars (confidence : ℚ) : List Bool :=
  (List.range 5).map fun (i : ℕ) => decide ((i : ℚ) < confidence)

/-- The characters the widget renders for the five star slots
(filled star for a true slot, empty star otherwise). -/
def renderStars (confidence : ℚ) : List Char :=
  (stars confidence).map fun filled => if filled then '★' else '☆'

end Frontend

namespace TaxEditor

/-- Splitting helper on character lists: accumulator-based embedding of
the JavaScript `string.split('.')`. -/
def splitDotAux : List Char → List Char → List (List Char)
  | [], acc => [acc.reverse]
  | c :: cs, acc =>
    if c = '.' then acc.reverse :: splitDotAux cs []
    else splitDotAux cs (c :: acc)

/-- Embedding of the JavaScript `id.split('.')` used throughout the
taxonomy editor (`src/unnamed/part_003`). -/
def jsSplitDot (s : String) : List String :=
  (splitDotAux s.data []).map String.mk

/-- Embedding of the JavaScript `parts.join('.')`. -/
def jsJoinDot : List String → String
  | [] => ""
  | [s] => s
  | s :: t :: rest => s ++ "." ++ jsJoinDot (t :: rest)

/-- Embedding of the JavaScript `string.trim()`. -/
def jsTrim (s : String) : String :=
  String.mk ((s.data.dropWhile Char.isWhitespace).reverse.dropWhile
    Char.isWhitespace).reverse

/-- Naming template of a taxonomy workspace (the `naming` object of
`taxonomy.yaml` entries as the editor reads it): prefix (`pfx`),
components, format and examples, each possibly absent. -/
structure TNaming where
  pfx : Option String
  components : Option (List String)
  format : Option String
  examples : Option (List String)
deriving DecidableEq, Repr

/-- A taxonomy workspace node as the editor script manipulates it
(an entry of `state.taxonomy.workspaces`). -/
structure TWorkspace where
  id : String
  description : Option String
  decisions : Option String
  llmContext : Option String
  naming : Option TNaming
deriving DecidableEq, Repr

/-- JavaScript test `!x || x.trim().length === 0` on an optional string:
absent, empty, or all-whitespace. -/
def blankStr : Option String → Bool
  | none => true
  | some s => s.data.all Char.isWhitespace

/-- Validation test 1 of `validateTaxonomy` (`part_003` line 710):
`!workspace.description || workspace.description.trim().length === 0`. -/
def descMissing (w : TWorkspace) : Bool := blankStr w.description

/-- Validation test 2 of `validateTaxonomy` (`part_003` line 715):
`!workspace.decisions || workspace.decisions.trim().length === 0`. -/
def decisionsMissing (w : TWorkspace) : Bool := blankStr w.decisions

/-- Validation test 3 of `validateTaxonomy` (`part_003` line 720):
`!workspace.naming || !workspace.naming.prefix`. -/
def pfxMissing (w : TWorkspace) : Bool :=
  match w.naming with
  | none => true
  | some n =>
    match n.pfx with
    | none => true
    | some p => p.isEmpty

/-- Validation test 4 of `validateTaxonomy` (`part_003` line 725):
`!workspace.naming?.examples || workspace.naming.examples.length === 0`. -/
def examplesMissing (w : TWorkspace) : Bool :=
  match w.naming with
  | none => true
  | some n =>
    match n.examples with
    | none => true
    | some l => l.isEmpty

/-- Error strings `validateTaxonomy` pushes for one workspace, in push
order (description check, then naming check). -/
def workspaceErrors (w : TWorkspace) : List String :=
  (if descMissing w then [w.id ++ ": Missing description"] else []) ++
  (if pfxMissing w then [w.id ++ ": Missing naming convention"] else [])

/-- Warning strings `validateTaxonomy` pushes for one workspace, in push
order (decisions check, then examples check). -/
def workspaceWarnings (w : TWorkspace) : List String :=
  (if decisionsMissing w then [w.id ++ ": No decision support specified"] else []) ++
  (if examplesMissing w then [w.id ++ ": No examples provided"] else [])

/-- The `errors` array `validateTaxonomy` accumulates over all
workspaces (`part_003` lines 704-728). -/
def validateErrors (ws : List TWorkspace) : List String :=
  ws.flatMap workspaceErrors

/-- The `warnings` array `validateTaxonomy` accumulates over all
workspaces (`part_003` lines 704-728). -/
def validateWarnings (ws : List TWorkspace) : List String :=
  ws.flatMap workspaceWarnings

/-- Embedding of `createDomain` (`part_003` lines 450-486): after
trimming, an empty name or an already-existing domain (any id starting
with the domain prefix) leaves the list unchanged; otherwise a
placeholder scope is appended. -/
def createDomain (ws : List TWorkspace) (rawName : String) : List TWorkspace :=
  let name := jsTrim rawName
  if name = "" then ws
  else
    let domainId := "KB." ++ name
    if ws.any (fun w => (domainId ++ ".").data.isPrefixOf w.id.data) then ws
    else
      ws ++ [{ id := domainId ++ ".Placeholder",
               description := some ("Placeholder scope for " ++ name ++
                 " domain. Add real scopes and delete this."),
               decisions := none, llmContext := none,
               naming := some { pfx := some "PH",
                                components := some ["type", "year"],
                                format := some "\x7bprefix\x7d-\x7btype\x7d-\x7byear\x7d",
                                examples := some [] } }]

/-- Embedding of `createScope` (`part_003` lines 488-526): after
trimming, an empty name or an exact duplicate id leaves the list
unchanged; otherwise the new scope `KB.domain.name` is appended. -/
def createScope (ws : List TWorkspace) (domain rawName rawDesc : String) :
    List TWorkspace :=
  let name := jsTrim rawName
  let description := jsTrim rawDesc
  if name = "" then ws
  else
    let scopeId := "KB." ++ domain ++ "." ++ name
    if ws.any (fun w => w.id == scopeId) then ws
    else
      ws ++ [{ id := scopeId,
               description := some (if description = "" then
                 "Documents related to " ++ name else description),
               decisions := none, llmContext := none,
               naming := some { pfx := some (name.take 3).toUpper,
                                components := some ["type", "date"],
                                format := some "\x7bprefix\x7d-\x7btype\x7d-\x7bdate\x7d",
                                examples := some [] } }]

/-- Rewrites the id of the first workspace whose id equals `cur`
(the editor mutates the workspace object found with `find`). -/
def setFirstId : List TWorkspace → String → String → List TWorkspace
  | [], _, _ => []
  | w :: rest, cur, newId =>
    if w.id == cur then { w with id := newId } :: rest
    else w :: setFirstId rest cur newId

/-- Embedding of `editNodeTitle` (`part_003` lines 528-550): the prompt
result may be null (`none`); an empty or unchanged name aborts; otherwise
the last path segment is replaced and the matching workspace id
rewritten.  No duplicate check is performed on the new id. -/
def editNodeTitle (ws : List TWorkspace) (currentId : String)
    (promptResult : Option String) : List TWorkspace :=
  if currentId = "" then ws
  else
    let parts := jsSplitDot currentId
    let currentName := (parts.getLast?).getD ""
    match promptResult with
    | none => ws
    | some newName =>
      if newName = "" || newName == currentName then ws
      else
        let newId := jsJoinDot (parts.dropLast ++ [newName])
        setFirstId ws currentId newId

/-- Removes the first workspace whose id equals `target` (the editor
uses `findIndex` followed by `splice(index, 1)`). -/
def removeFirstId : List TWorkspace → String → List TWorkspace
  | [], _ => []
  | w :: rest, target =>
    if w.id == target then rest else w :: removeFirstId rest target

/-- Embedding of `deleteNode` (`part_003` lines 552-593): a declined
confirm aborts; a 2-segment id is a domain and every id under it is
removed; otherwise the single matching scope is removed. -/
def deleteNode (ws : List TWorkspace) (selectedId : String)
    (confirmed : Bool) : List TWorkspace :=
  if selectedId = "" then ws
  else if !confirmed then ws
  else if (jsSplitDot selectedId).length = 2 then
    ws.filter fun w => !((selectedId ++ ".").data.isPrefixOf w.id.data)
  else
    removeFirstId ws selectedId

/-- Path uniqueness half of the taxonomy invariant (spec section 3):
no two workspace nodes share an id. -/
def uniqueIds (ws : List TWorkspace) : Prop :=
  (ws.map TWorkspace.id).Nodup

instance (ws : List TWorkspace) : Decidable (uniqueIds ws) :=
  List.nodupDecidable _

/-- A path has exactly 3 dot-separated segments (Root.Domain.Scope). -/
def threeSegment (s : String) : Prop :=
  (jsSplitDot s).length = 3

instance (s : String) : Decidable (threeSegment s) :=
  Nat.decEq _ _

/-- Segment-count half of the taxonomy invariant (spec section 3). -/
def allThreeSegment (ws : List TWorkspace) : Prop :=
  ∀ w ∈ ws, threeSegment w.id

instance (ws : List TWorkspace) : Decidable (allThreeSegment ws) :=
  List.decidableBAll _ _

end TaxEditor

namespace SpecModel

/-- Review lifecycle states (spec section 4.4). -/
inductive Status where
  | pending
  | approved
  | rejected
  | ignored
  | migrated
deriving DecidableEq, Repr

/-- Who attempts a transition: the reviewer (via the review UI or the
bulk coordinator) or the Migration Engine. -/
inductive Actor where
  | reviewer
  | migrationEngine
deriving DecidableEq, Repr

/-- Taxonomy as the core consumes it: the set of node paths plus the
designated fallback category (spec sections 3 and 4.1). -/
structure Taxonomy where
  paths : List String
  fallback : String
deriving DecidableEq, Repr

/-- The `resolve(path)` check of the Taxonomy Registry. -/
def Taxonomy.resolves (t : Taxonomy) (p : String) : Bool :=
  t.paths.contains p

/-- DocumentItem of the spec data model (section 3). -/
structure Item where
  id : Nat
  hash : String
  sourcePath : String
  categoryPath : String
  subpath : String
  filename : String
  confidence : ℚ
  status : Status
  needsReview : Bool
  notes : String
  migratedPath : Option String
  migratedAt : Option Nat
deriving DecidableEq, Repr

/-- The DocumentItem invariant of spec section 3: confidence lies in the
normalized range [0,5] and the category path either resolves in the
taxonomy or equals the designated fallback category. -/
def itemInv (t : Taxonomy) (it : Item) : Prop :=
  0 ≤ it.confidence ∧ it.confidence ≤ 5 ∧
    (t.resolves it.categoryPath = true ∨ it.categoryPath = t.fallback)

/-- Structured inference-backend response (spec section 6). -/
structure InferenceResult where
  categoryPath : String
  confidence : ℚ
  reasoning : String
deriving DecidableEq, Repr

/-- Modelled from the spec: confidence normalization of the
Classification Orchestrator, clamping a raw score into [0,5]. -/
def clampConfidence (c : ℚ) : ℚ := max 0 (min 5 c)

/-- Modelled from the spec: the Classification Orchestrator (section
4.3) is backend code absent from src/.  A result whose category path
resolves is accepted with normalized confidence; a category that does
not resolve (HallucinatedCategory) is clamped to the fallback category
with confidence forced to 0 and the needs_review flag set. -/
def classify (t : Taxonomy) (it : Item) (r : InferenceResult) : Item :=
  if t.resolves r.categoryPath then
    { it with categoryPath := r.categoryPath,
              confidence := clampConfidence r.confidence }
  else
    { it with categoryPath := t.fallback, confidence := 0,
              needsReview := true }

/-- Modelled from the spec: the allowed transition edges of the Review
State Machine (section 4.4): pending to approved / rejected / ignored,
the reopen edges rejected / ignored to pending, and approved to migrated
for the Migration Engine only. -/
def allowedEdge : Status → Status → Actor → Bool
  | .pending, .approved, .reviewer => true
  | .pending, .rejected, .reviewer => true
  | .pending, .ignored, .reviewer => true
  | .rejected, .pending, .reviewer => true
  | .ignored, .pending, .reviewer => true
  | .approved, .migrated, .migrationEngine => true
  | _, _, _ => false

/-- Errors of the review layer (spec sections 4.4 and 7). -/
inductive ReviewError where
  | invalidTransition
  | immutable
  | invalidCategory
deriving DecidableEq, Repr

/-- Explanatory message attached to each review error (spec section 7:
rejected with an explanatory error). -/
def ReviewError.message : ReviewError → String
  | .invalidTransition => "InvalidTransition: not an allowed status change"
  | .immutable => "Immutable: migrated items cannot be modified"
  | .invalidCategory => "InvalidCategory: path neither resolves nor is the fallback"

/-- Modelled from the spec: the status-transition operation of the
Review State Machine (section 4.4), absent from src/ (the frontend only
issues PATCH requests).  A migrated item is immutable; any transition
that is not an allowed edge is rejected with InvalidTransition; a
rejected request produces no mutated item. -/
def setStatus (it : Item) (tgt : Status) (a : Actor) : Except ReviewError Item :=
  if it.status = .migrated then .error .immutable
  else if allowedEdge it.status tgt a then .ok { it with status := tgt }
  else .error .invalidTransition

/-- Partial update payload enumerating the editable fields
(spec section 9). -/
structure EditPayload where
  categoryPath : Option String
  subpath : Option String
  filename : Option String
  notes : Option String
deriving DecidableEq, Repr

/-- Statuses in which proposal fields may be edited (spec section 4.4:
pending, rejected, ignored). -/
def editableStatus : Status → Bool
  | .pending => true
  | .rejected => true
  | .ignored => true
  | .approved => false
  | .migrated => false

/-- Modelled from the spec: the validated field edit of the review layer
(sections 4.4 and 9), absent from src/.  Edits to a migrated item are
rejected as Immutable, edits outside pending / rejected / ignored as
InvalidTransition, and a category path that neither resolves nor equals
the fallback as InvalidCategory; a rejected edit produces no mutation. -/
def applyEdit (t : Taxonomy) (it : Item) (e : EditPayload) :
    Except ReviewError Item :=
  if it.status = .migrated then .error .immutable
  else if !editableStatus it.status then .error .invalidTransition
  else
    match e.categoryPath with
    | some p =>
      if t.resolves p || p == t.fallback then
        .ok { it with categoryPath := p,
                      subpath := e.subpath.getD it.subpath,
                      filename := e.filename.getD it.filename,
                      notes := e.notes.getD it.notes }
      else .error .invalidCategory
    | none =>
      .ok { it with subpath := e.subpath.getD it.subpath,
                    filename := e.filename.getD it.filename,
                    notes := e.notes.getD it.notes }

/-- Intermediate result of a bulk run: successful ids, itemized
failures, and the updated store. -/
structure BulkOutcome where
  succeeded : List Nat
  failures : List (Nat × String)
  store : List Item
deriving DecidableEq, Repr

/-- Modelled from the spec: per-id processing of the Bulk Operation
Coordinator (section 4.5), absent from src/.  Each id runs the same
validity checks as the single-item state machine; an unknown id or an
invalid transition is recorded as an itemized failure and never aborts
the rest of the batch. -/
def bulkGo (store : List Item) (ids : List Nat) (tgt : Status) : BulkOutcome :=
  match ids with
  | [] => { succeeded := [], failures := [], store := store }
  | id :: rest =>
    match store.find? (fun it => it.id == id) with
    | none =>
      let r := bulkGo store rest tgt
      { r with failures := (id, "item not found") :: r.failures }
    | some it =>
      match setStatus it tgt .reviewer with
      | .ok it2 =>
        let store2 := store.map fun x => if x.id == id then it2 else x
        let r := bulkGo store2 rest tgt
        { r with succeeded := id :: r.succeeded }
      | .error e =>
        let r := bulkGo store rest tgt
        { r with failures := (id, e.message) :: r.failures }

/-- Result shape of `apply(ids, action)` (spec section 4.5). -/
structure BulkResult where
  updated_count : Nat
  failures : List (Nat × String)
deriving DecidableEq, Repr

/-- Modelled from the spec: `apply(ids, action) -> {updated_count,
failures}` of the Bulk Operation Coordinator (section 4.5).  Total by
construction: it never raises. -/
def bulkApply (store : List Item) (ids : List Nat) (tgt : Status) :
    BulkResult × List Item :=
  let r := bulkGo store ids tgt
  ({ updated_count := r.succeeded.length, failures := r.failures }, r.store)

/-- One destination file the Migration Engine has written: path and
content hash. -/
structure FsEntry where
  path : String
  hash : String
deriving DecidableEq, Repr

/-- State the Migration Engine acts on: the item store and the
destination filesystem. -/
structure MigState where
  items : List Item
  fs : List FsEntry
deriving DecidableEq, Repr

/-- Category path rendered as nested directories. -/
def dotsToSlashes (s : String) : String :=
  String.mk (s.data.map fun c => if c = '.' then '/' else c)

/-- Modelled from the spec: `destination = root / category_path_as_dirs
/ subpath / filename` (section 4.6). -/
def destBase (root : String) (it : Item) : String :=
  root ++ "/" ++ dotsToSlashes it.categoryPath ++ "/" ++ it.subpath ++
    "/" ++ it.filename

/-- Candidate destination with the n-th numeric suffix (0 is the plain
destination). -/
def withSuffix (base : String) : Nat → String
  | 0 => base
  | n + 1 => base ++ "_" ++ toString (n + 1)

/-- Whether the filesystem already holds a file at path `p`. -/
def fsHas (fs : List FsEntry) (p : String) : Bool :=
  fs.any fun e => e.path == p

/-- Content hash of the file at `p`, when present. -/
def fsHashAt (fs : List FsEntry) (p : String) : Option String :=
  (fs.find? fun e => e.path == p).map fun e => e.hash

/-- Fuelled search for the first free suffixed destination; the fuel
`fs.length + 1` always suffices since at most `fs.length` candidates can
be occupied. -/
def findFreeGo (fs : List FsEntry) (base : String) : Nat → Nat → String
  | 0, n => withSuffix base n
  | fuel + 1, n =>
    let cand := withSuffix base n
    if fsHas fs cand then findFreeGo fs base fuel (n + 1) else cand

/-- Modelled from the spec: the deterministic numeric-suffix conflict
rule (section 4.6), incrementing until a free destination is found. -/
def findFree (fs : List FsEntry) (base : String) (start : Nat) : String :=
  findFreeGo fs base (fs.length + 1) start

/-- Marks an item migrated with its destination path and timestamp;
the Migration Engine is the only writer of these fields. -/
def markMigrated (it : Item) (dest : String) (now : Nat) : Item :=
  { it with status := .migrated, migratedPath := some dest,
            migratedAt := some now }

/-- Modelled from the spec: per-item migration (section 4.6), absent
from src/.  Only an approved item is processed; identical content at the
destination is treated as already migrated (skip, mark migrated, no
copy); different content gets the suffixed destination; otherwise the
file is copied to the plain destination.  The third component is the
plan entry for the item, if it was processed. -/
def migrateItem (root : String) (now : Nat) (fs : List FsEntry) (it : Item) :
    List FsEntry × Item × Option (Nat × String) :=
  if it.status = .approved then
    let base := destBase root it
    match fsHashAt fs base with
    | some h =>
      if h == it.hash then (fs, markMigrated it base now, some (it.id, base))
      else
        let d := findFree fs base 1
        (⟨d, it.hash⟩ :: fs, markMigrated it d now, some (it.id, d))
    | none => (⟨base, it.hash⟩ :: fs, markMigrated it base now, some (it.id, base))
  else (fs, it, none)

/-- Modelled from the spec: the migration run over the whole store
(section 4.6), threading the filesystem so intra-batch conflicts are
detected, and collecting the destination plan. -/
def migrateGo (root : String) (now : Nat) (fs : List FsEntry) :
    List Item → List FsEntry × List Item × List (Nat × String)
  | [] => (fs, [], [])
  | it :: rest =>
    let s := migrateItem root now fs it
    let r := migrateGo root now s.1 rest
    (r.1, s.2.1 :: r.2.1, s.2.2.toList ++ r.2.2)

/-- What a migration run reports: the destination plan and the number of
items migrated. -/
structure MigrationReport where
  plan : List (Nat × String)
  migrated : Nat
deriving DecidableEq, Repr

/-- Modelled from the spec: the Migration Engine entry point with
`dry_run` (section 4.6), absent from src/ (`client.ts` only posts to
/migrate).  The plan is always computed with the full conflict logic; a
dry run reports migrated = 0 and leaves both the store and the
filesystem untouched. -/
def migrateRun (dryRun : Bool) (root : String) (now : Nat) (st : MigState) :
    MigrationReport × MigState :=
  let r := migrateGo root now st.fs st.items
  if dryRun then ({ plan := r.2.2, migrated := 0 }, st)
  else ({ plan := r.2.2, migrated := r.2.2.length },
        { items := r.2.1, fs := r.1 })

/-- The real (non-dry) migration run on the state. -/
def migrate (root : String) (now : Nat) (st : MigState) : MigState :=
  (migrateRun false root now st).2

end SpecModel

/-- Concrete fetched item with status rejected and high confidence, used
to probe the triage lists. -/
def itemRejected95 : Frontend.DocumentItem :=
  { id := "r1", source_path := "/in/r.txt", original_filename := "r.txt",
    proposed_workspace := "KB.Finance.Tax", proposed_subpath := "2024",
    proposed_filename := "r.txt", confidence := some 95, status := "rejected" }

/-- Concrete pending high-confidence item. -/
def itemPending95 : Frontend.DocumentItem :=
  { id := "p1", source_path := "/in/p.txt", original_filename := "p.txt",
    proposed_workspace := "KB.Finance.Tax", proposed_subpath := "2024",
    proposed_filename := "p.txt", confidence := some 95, status := "pending" }

/-- Concrete taxonomy node KB.A.X with no optional data. -/
def wKBAX : TaxEditor.TWorkspace :=
  { id := "KB.A.X", description := none, decisions := none,
    llmContext := none, naming := none }

/-- Concrete taxonomy node KB.A.Y with no optional data. -/
def wKBAY : TaxEditor.TWorkspace :=
  { id := "KB.A.Y", description := none, decisions := none,
    llmContext := none, naming := none }

/-- Two-scope taxonomy on which renaming X to Y collides. -/
def editCexWs : List TaxEditor.TWorkspace := [wKBAX, wKBAY]

/-- A scope node that has a naming prefix but no description. -/
def wNoDesc : TaxEditor.TWorkspace :=
  { id := "KB.Finance.Tax", description := none, decisions := some "d",
    llmContext := none,
    naming := some { pfx := some "TAX", components := some ["type"],
                     format := some "f", examples := some ["TAX-1"] } }

/-- Concrete spec-model taxonomy with a designated fallback category. -/
def taxKB : SpecModel.Taxonomy :=
  { paths := ["KB.Finance.Tax", "KB.Personal.Health"],
    fallback := "KB.Misc.NoGoodFit" }

/-- Concrete pending item satisfying the DocumentItem invariant. -/
def itemBase : SpecModel.Item :=
  { id := 1, hash := "h1", sourcePath := "/in/a.pdf",
    categoryPath := "KB.Finance.Tax", subpath := "2024",
    filename := "a.pdf", confidence := 3, status := .pending,
    needsReview := false, notes := "", migratedPath := none,
    migratedAt := none }

/-- Concrete already-migrated item. -/
def itemMigratedX : SpecModel.Item := { itemBase with status := .migrated }

/-- Concrete approved item. -/
def itemApprovedX : SpecModel.Item := { itemBase with status := .approved }

/-- Concrete migration state holding one approved item and an empty
destination tree. -/
def stApproved : SpecModel.MigState := { items := [itemApprovedX], fs := [] }

/-- Inference response naming a category outside the taxonomy. -/
def infBad : SpecModel.InferenceResult :=
  { categoryPath := "KB.Bogus.NotReal", confidence := 9, reasoning := "r" }

/-- Concrete migrated item with a second id, for bulk-action runs. -/
def itemMigrated2 : SpecModel.Item :=
  { itemBase with id := 2, status := .migrated }

instance (t : SpecModel.Taxonomy) (it : SpecModel.Item) :
    Decidable (SpecModel.itemInv t it) := by
  unfold SpecModel.itemInv; infer_instance

/-- C10: `ConfidenceIndicator` is total: for every rational confidence
value it renders exactly 5 star slots, slot `i` being filled exactly when
`i < confidence`; for confidence at most 0 every slot is empty and for
confidence at least 5 every slot is filled. -/
theorem confidenceIndicator_total (c : ℚ) :
    (Frontend.stars c).length = 5 ∧
    (∀ i : Fin (Frontend.stars c).length,
      (Frontend.stars c).get i = decide ((i.val : ℚ) < c)) ∧
    (c ≤ 0 → ∀ b ∈ Frontend.stars c, b = false) ∧
    (5 ≤ c → ∀ b ∈ Frontend.stars c, b = true) ∧
    (Frontend.renderStars c).length = 5 := by
  refine ⟨by simp only [Frontend.stars, List.length_map, List.length_range], ?_, ?_, ?_,
    by simp only [Frontend.renderStars, Frontend.stars, List.length_map, List.length_range]⟩
  · intro i
    simp only [Frontend.stars, List.get_eq_getElem, List.getElem_map, List.getElem_range]
  · intro hc b hb
    simp only [Frontend.stars, List.mem_map, List.mem_range] at hb
    obtain ⟨i, _, rfl⟩ := hb
    simp only [decide_eq_false_iff_not, not_lt]
    exact hc.trans (Nat.cast_nonneg i)
  · intro hc b hb
    simp only [Frontend.stars, List.mem_map, List.mem_range] at hb
    obtain ⟨i, hi, rfl⟩ := hb
    simp only [decide_eq_true_eq]
    have h5 : (i : ℚ) < 5 := by exact_mod_cast hi
    exact h5.trans_le hc

/-- Witness for C10 at the out-of-range confidences -1 and 7. -/
theorem confidenceIndicator_total_witness :
    ((-1 : ℚ) ≤ 0 ∧ ∀ b ∈ Frontend.stars (-1), b = false) ∧
    ((5 : ℚ) ≤ 7 ∧ ∀ b ∈ Frontend.stars 7, b = true) :=
  ⟨⟨by norm_num, (confidenceIndicator_total (-1)).2.2.1 (by norm_num)⟩,
   ⟨by norm_num, (confidenceIndicator_total 7).2.2.2.1 (by norm_num)⟩⟩

/-- C9: confirming the reject dialog dispatches exactly one bulk action,
the one named by the chosen option, and every option is one of reject,
reject_and_move or delete; the delete option (permanent file deletion) is
among the rendered confirm buttons, hence reachable from the review
interface. -/
theorem rejectConfirm_single_dispatch (s : Frontend.BulkActionsState)
    (c : Frontend.RejectChoice) (hc : c ∈ Frontend.rejectModalChoices) :
    (Frontend.handleRejectConfirm s c).1 = [Frontend.rejectChoiceAction c] ∧
    (Frontend.handleRejectConfirm s c).1.length = 1 ∧
    Frontend.rejectChoiceAction c ∈
      (["reject", "reject_and_move", "delete"] : List String) ∧
    (Frontend.handleRejectConfirm s c).2.isRejectModalOpen = false ∧
    Frontend.RejectChoice.deleteFiles ∈ Frontend.rejectModalChoices ∧
    Frontend.rejectChoiceAction .deleteFiles = "delete" := by
  refine ⟨rfl, rfl, ?_, rfl, by decide, rfl⟩
  cases c <;> simp [Frontend.rejectChoiceAction]

/-- Witness for C9: the delete option itself. -/
theorem rejectConfirm_single_dispatch_witness :
    Frontend.RejectChoice.deleteFiles ∈ Frontend.rejectModalChoices ∧
    (Frontend.handleRejectConfirm ⟨true⟩ .deleteFiles).1 =
      [Frontend.rejectChoiceAction .deleteFiles] :=
  ⟨by decide,
   (rejectConfirm_single_dispatch ⟨true⟩ .deleteFiles (by decide)).1⟩

/-- C8 counterexample: the two triage lists do not partition the fetched
items.  A fetched item with status rejected (here with confidence 95)
appears in neither the Ready to Approve list nor the Needs Review list,
although it is among the fetched items. -/
theorem triage_lists_not_partition :
    Frontend.readyToApprove [itemRejected95] = [] ∧
    Frontend.needsReview [itemRejected95] = [] ∧
    itemRejected95 ∈ [itemRejected95] := by decide

/-- C8 amended: within the review step the two triage lists are exactly
characterized and disjoint, and the displayed counts equal the list
sizes: an item is in Ready to Approve iff it is fetched and approved, or
pending with confidence at least 90; it is in Needs Review iff it is
fetched and pending with confidence below 90 (the threshold is 90 on a
0-100 scale); the rendered file list equals the selected triage list.
Items with any other status (rejected, ignored, ...) are in neither
list, so only the approved-or-pending items are partitioned. -/
theorem triage_lists_characterized (items : List Frontend.DocumentItem)
    (it : Frontend.DocumentItem) :
    (it ∈ Frontend.readyToApprove items ↔ it ∈ items ∧
      (it.status = "approved" ∨
        (it.status = "pending" ∧ 90 ≤ Frontend.confOr0 it))) ∧
    (it ∈ Frontend.needsReview items ↔ it ∈ items ∧
      it.status = "pending" ∧ Frontend.confOr0 it < 90) ∧
    ¬(it ∈ Frontend.readyToApprove items ∧ it ∈ Frontend.needsReview items) ∧
    Frontend.filteredItems "review" "ready" items = Frontend.readyToApprove items ∧
    Frontend.filteredItems "review" "needs_review" items = Frontend.needsReview items ∧
    Frontend.readyCountShown items = (Frontend.readyToApprove items).length ∧
    Frontend.needsReviewCountShown items = (Frontend.needsReview items).length := by
  have hready : it ∈ Frontend.readyToApprove items ↔ it ∈ items ∧
      (it.status = "approved" ∨
        (it.status = "pending" ∧ 90 ≤ Frontend.confOr0 it)) := by
    simp [Frontend.readyToApprove, Frontend.readyPred, List.mem_filter]
  have hneeds : it ∈ Frontend.needsReview items ↔ it ∈ items ∧
      it.status = "pending" ∧ Frontend.confOr0 it < 90 := by
    simp [Frontend.needsReview, Frontend.needsReviewPred, List.mem_filter]
  refine ⟨hready, hneeds, ?_, rfl, rfl, rfl, rfl⟩
  rintro ⟨h1, h2⟩
  rw [hready] at h1
  rw [hneeds] at h2
  obtain ⟨-, h1⟩ := h1
  obtain ⟨-, hp, hlt⟩ := h2
  rcases h1 with h | ⟨-, hge⟩
  · rw [hp] at h; exact absurd h (by decide)
  · exact absurd (hlt.trans_le hge) (lt_irrefl _)

/-- Witness for C8 at a concrete pending high-confidence item. -/
theorem triage_lists_characterized_witness :
    itemPending95 ∈ Frontend.readyToApprove [itemPending95] :=
  (triage_lists_characterized [itemPending95] itemPending95).1.mpr
    ⟨by decide, Or.inr ⟨rfl, by decide⟩⟩

/-- C6: `validateTaxonomy` reports an error issue for every node lacking
a description and for every node lacking a naming prefix, and a warning
issue for every node without examples; every such issue is the node path
followed by the message, so it references the offending path; and when no
node has a description or prefix defect the error list is empty. -/
theorem validateTaxonomy_flags_defects (ws : List TaxEditor.TWorkspace) :
    (∀ w ∈ ws,
      (TaxEditor.descMissing w = true →
        (w.id ++ ": Missing description") ∈ TaxEditor.validateErrors ws) ∧
      (TaxEditor.pfxMissing w = true →
        (w.id ++ ": Missing naming convention") ∈ TaxEditor.validateErrors ws) ∧
      (TaxEditor.examplesMissing w = true →
        (w.id ++ ": No examples provided") ∈ TaxEditor.validateWarnings ws)) ∧
    ((∀ w ∈ ws, TaxEditor.descMissing w = false ∧ TaxEditor.pfxMissing w = false) →
      TaxEditor.validateErrors ws = []) := by
  constructor
  · intro w hw
    refine ⟨?_, ?_, ?_⟩
    · intro hd
      simp only [TaxEditor.validateErrors, List.mem_flatMap]
      exact ⟨w, hw, by simp [TaxEditor.workspaceErrors, hd]⟩
    · intro hp
      simp only [TaxEditor.validateErrors, List.mem_flatMap]
      exact ⟨w, hw, by simp [TaxEditor.workspaceErrors, hp]⟩
    · intro he
      simp only [TaxEditor.validateWarnings, List.mem_flatMap]
      exact ⟨w, hw, by simp [TaxEditor.workspaceWarnings, he]⟩
  · intro h
    simp only [TaxEditor.validateErrors, List.flatMap_eq_nil_iff]
    intro w hw
    obtain ⟨h1, h2⟩ := h w hw
    simp [TaxEditor.workspaceErrors, h1, h2]

/-- Witness for C6: a scope node missing a description produces an error
issue referencing its path, and a defect-free node list yields no errors. -/
theorem validateTaxonomy_flags_defects_witness :
    ("KB.A.X: Missing description") ∈ TaxEditor.validateErrors [wKBAX] ∧
    TaxEditor.validateErrors [{ wNoDesc with description := some "described" }] = [] := by
  constructor
  · exact ((validateTaxonomy_flags_defects [wKBAX]).1 wKBAX (by decide)).1 (by decide)
  · exact (validateTaxonomy_flags_defects _).2 (by decide)

/-- Removing the first matching workspace yields a sublist. -/
theorem removeFirstId_sublist (ws : List TaxEditor.TWorkspace) (t : String) :
    List.Sublist (TaxEditor.removeFirstId ws t) ws := by
  induction ws with
  | nil => simp [TaxEditor.removeFirstId]
  | cons w rest ih =>
    simp only [TaxEditor.removeFirstId]
    split
    · exact List.sublist_cons_self w rest
    · exact List.Sublist.cons₂ w ih

/-- The domain marker `a ++ "."` is a prefix of the placeholder id
`a ++ ".Placeholder"`. -/
theorem prefixOf_dot_placeholder (a : String) :
    ((a ++ ".").data.isPrefixOf (a ++ ".Placeholder").data) = true := by
  rw [List.isPrefixOf_iff_prefix, String.data_append, String.data_append]
  refine ⟨"Placeholder".data, ?_⟩
  rw [List.append_assoc]
  congr 1

/-- `createScope` preserves path uniqueness: it checks for an existing
identical id before appending. -/
theorem createScope_unique (ws : List TaxEditor.TWorkspace) (d n de : String)
    (h : TaxEditor.uniqueIds ws) :
    TaxEditor.uniqueIds (TaxEditor.createScope ws d n de) := by
  simp only [TaxEditor.createScope]
  split
  · exact h
  · split
    · exact h
    · rename_i hne hex
      unfold TaxEditor.uniqueIds at h ⊢
      rw [List.map_append]
      simp only [List.map_cons, List.map_nil]
      rw [List.nodup_append]
      refine ⟨h, List.nodup_singleton _, ?_⟩
      intro x hx hx2
      simp only [List.mem_singleton] at hx2
      subst hx2
      obtain ⟨w, hw, hwid⟩ := List.mem_map.mp hx
      exact hex (List.any_eq_true.mpr ⟨w, hw, by simp [hwid]⟩)

/-- `createDomain` preserves path uniqueness: the new placeholder id
starts with the domain marker the existence check looks for. -/
theorem createDomain_unique (ws : List TaxEditor.TWorkspace) (n : String)
    (h : TaxEditor.uniqueIds ws) :
    TaxEditor.uniqueIds (TaxEditor.createDomain ws n) := by
  simp only [TaxEditor.createDomain]
  split
  · exact h
  · split
    · exact h
    · rename_i hne hex
      unfold TaxEditor.uniqueIds at h ⊢
      rw [List.map_append]
      simp only [List.map_cons, List.map_nil]
      rw [List.nodup_append]
      refine ⟨h, List.nodup_singleton _, ?_⟩
      intro x hx hx2
      simp only [List.mem_singleton] at hx2
      subst hx2
      obtain ⟨w, hw, hwid⟩ := List.mem_map.mp hx
      refine hex (List.any_eq_true.mpr ⟨w, hw, ?_⟩)
      rw [hwid]
      exact prefixOf_dot_placeholder ("KB." ++ TaxEditor.jsTrim n)

/-- `deleteNode` preserves path uniqueness, in both its domain and scope
branches, since each only removes elements. -/
theorem deleteNode_unique (ws : List TaxEditor.TWorkspace) (sel : String)
    (cf : Bool) (h : TaxEditor.uniqueIds ws) :
    TaxEditor.uniqueIds (TaxEditor.deleteNode ws sel cf) := by
  simp only [TaxEditor.deleteNode]
  split
  · exact h
  · split
    · exact h
    · split
      · exact List.Nodup.sublist ((List.filter_sublist _).map _) h
      · exact List.Nodup.sublist ((removeFirstId_sublist ws sel).map _) h

/-- `deleteNode` preserves the 3-segment property of all remaining ids. -/
theorem deleteNode_threeSeg (ws : List TaxEditor.TWorkspace) (sel : String)
    (cf : Bool) (h : TaxEditor.allThreeSegment ws) :
    TaxEditor.allThreeSegment (TaxEditor.deleteNode ws sel cf) := by
  simp only [TaxEditor.deleteNode]
  split
  · exact h
  · split
    · exact h
    · split
      · exact fun w hw => h w ((List.filter_sublist _).subset hw)
      · exact fun w hw => h w ((removeFirstId_sublist ws sel).subset hw)

/-- `createScope` preserves the 3-segment property when the constructed
id itself has 3 segments (the entered names contain no dot). -/
theorem createScope_threeSeg (ws : List TaxEditor.TWorkspace) (d n de : String)
    (h : TaxEditor.allThreeSegment ws)
    (h3 : TaxEditor.threeSegment ("KB." ++ d ++ "." ++ TaxEditor.jsTrim n)) :
    TaxEditor.allThreeSegment (TaxEditor.createScope ws d n de) := by
  simp only [TaxEditor.createScope]
  split
  · exact h
  · split
    · exact h
    · intro w hw
      rcases List.mem_append.mp hw with hw | hw
      · exact h w hw
      · simp only [List.mem_singleton] at hw
        subst hw
        exact h3

/-- A member of `setFirstId ws cur newId` is an original member or
carries the rewritten id. -/
theorem setFirstId_mem (ws : List TaxEditor.TWorkspace) (cur newId : String) :
    ∀ w ∈ TaxEditor.setFirstId ws cur newId, w ∈ ws ∨ w.id = newId := by
  induction ws with
  | nil => simp [TaxEditor.setFirstId]
  | cons w0 rest ih =>
    intro w hw
    simp only [TaxEditor.setFirstId] at hw
    split at hw
    · rcases List.mem_cons.mp hw with rfl | hw
      · right; rfl
      · left; exact List.mem_cons_of_mem _ hw
    · rcases List.mem_cons.mp hw with rfl | hw
      · left; exact List.mem_cons_self _ _
      · rcases ih w hw with h | h
        · left; exact List.mem_cons_of_mem _ h
        · right; exact h

/-- `createDomain` preserves the 3-segment property when the constructed
placeholder id `KB.name.Placeholder` has 3 segments (the trimmed name
contains no dot). -/
theorem createDomain_threeSeg (ws : List TaxEditor.TWorkspace) (n : String)
    (h : TaxEditor.allThreeSegment ws)
    (h3 : TaxEditor.threeSegment ("KB." ++ TaxEditor.jsTrim n ++ ".Placeholder")) :
    TaxEditor.allThreeSegment (TaxEditor.createDomain ws n) := by
  simp only [TaxEditor.createDomain]
  split
  · exact h
  · split
    · exact h
    · intro w hw
      rcases List.mem_append.mp hw with hw | hw
      · exact h w hw
      · simp only [List.mem_singleton] at hw
        subst hw
        exact h3

/-- `editNodeTitle` preserves the 3-segment property when the rewritten
id (the old path with its last segment replaced by the new name) has 3
segments, which holds whenever the renamed path had 3 segments and the
new name contains no dot. -/
theorem editNodeTitle_threeSeg (ws : List TaxEditor.TWorkspace)
    (currentId newName : String)
    (h : TaxEditor.allThreeSegment ws)
    (h3 : TaxEditor.threeSegment (TaxEditor.jsJoinDot
      ((TaxEditor.jsSplitDot currentId).dropLast ++ [newName]))) :
    TaxEditor.allThreeSegment
      (TaxEditor.editNodeTitle ws currentId (some newName)) := by
  simp only [TaxEditor.editNodeTitle]
  split
  · exact h
  · split
    · exact h
    · intro w hw
      rcases setFirstId_mem ws currentId _ w hw with hm | hid
      · exact h w hm
      · unfold TaxEditor.threeSegment
        rw [hid]
        exact h3

/-- A cancelled rename prompt changes nothing. -/
theorem editNodeTitle_none (ws : List TaxEditor.TWorkspace) (currentId : String) :
    TaxEditor.editNodeTitle ws currentId none = ws := by
  simp only [TaxEditor.editNodeTitle]
  split <;> rfl

/-- C7 counterexample: taxonomy editing does not preserve path
uniqueness.  On the 3-segment, unique taxonomy [KB.A.X, KB.A.Y],
renaming node KB.A.X to Y via `editNodeTitle` produces the id KB.A.Y
twice: the rename performs no duplicate check on the new id. -/
theorem editNodeTitle_duplicates_path :
    TaxEditor.uniqueIds editCexWs ∧ TaxEditor.allThreeSegment editCexWs ∧
    ¬ TaxEditor.uniqueIds (TaxEditor.editNodeTitle editCexWs "KB.A.X" (some "Y")) := by
  decide

/-- C7 amended: `createDomain`, `createScope` and `deleteNode` preserve
path uniqueness (the create operations check for an existing id first);
all four operations preserve the 3-segment property, the create and
rename operations provided the id they construct has 3 segments (entered
names containing a dot break it, as nothing filters dots out); a
cancelled rename changes nothing; but `editNodeTitle` does not preserve
uniqueness, as it performs no duplicate check on the new id. -/
theorem taxonomy_edit_ops_amended :
    (∀ ws d n de, TaxEditor.uniqueIds ws →
      TaxEditor.uniqueIds (TaxEditor.createScope ws d n de)) ∧
    (∀ ws n, TaxEditor.uniqueIds ws →
      TaxEditor.uniqueIds (TaxEditor.createDomain ws n)) ∧
    (∀ ws sel cf, TaxEditor.uniqueIds ws →
      TaxEditor.uniqueIds (TaxEditor.deleteNode ws sel cf)) ∧
    (∀ ws sel cf, TaxEditor.allThreeSegment ws →
      TaxEditor.allThreeSegment (TaxEditor.deleteNode ws sel cf)) ∧
    (∀ ws d n de, TaxEditor.allThreeSegment ws →
      TaxEditor.threeSegment ("KB." ++ d ++ "." ++ TaxEditor.jsTrim n) →
      TaxEditor.allThreeSegment (TaxEditor.createScope ws d n de)) ∧
    (∀ ws n, TaxEditor.allThreeSegment ws →
      TaxEditor.threeSegment ("KB." ++ TaxEditor.jsTrim n ++ ".Placeholder") →
      TaxEditor.allThreeSegment (TaxEditor.createDomain ws n)) ∧
    (∀ ws cur nn, TaxEditor.allThreeSegment ws →
      TaxEditor.threeSegment (TaxEditor.jsJoinDot
        ((TaxEditor.jsSplitDot cur).dropLast ++ [nn])) →
      TaxEditor.allThreeSegment (TaxEditor.editNodeTitle ws cur (some nn))) ∧
    (∀ ws cur, TaxEditor.editNodeTitle ws cur none = ws) :=
  ⟨createScope_unique, createDomain_unique, deleteNode_unique,
   deleteNode_threeSeg, createScope_threeSeg, createDomain_threeSeg,
   editNodeTitle_threeSeg, editNodeTitle_none⟩

/-- Witness for the amended C7 on a concrete 2-node taxonomy, covering
scope creation, domain creation and a dot-free rename. -/
theorem taxonomy_edit_ops_amended_witness :
    TaxEditor.uniqueIds editCexWs ∧
    TaxEditor.uniqueIds (TaxEditor.createScope editCexWs "A" "Z" "") ∧
    TaxEditor.allThreeSegment editCexWs ∧
    TaxEditor.threeSegment ("KB." ++ "A" ++ "." ++ TaxEditor.jsTrim "Z") ∧
    TaxEditor.allThreeSegment (TaxEditor.createScope editCexWs "A" "Z" "") ∧
    TaxEditor.threeSegment ("KB." ++ TaxEditor.jsTrim "B" ++ ".Placeholder") ∧
    TaxEditor.allThreeSegment (TaxEditor.createDomain editCexWs "B") ∧
    TaxEditor.threeSegment (TaxEditor.jsJoinDot
      ((TaxEditor.jsSplitDot "KB.A.X").dropLast ++ ["Z"])) ∧
    TaxEditor.allThreeSegment
      (TaxEditor.editNodeTitle editCexWs "KB.A.X" (some "Z")) :=
  ⟨by decide,
   taxonomy_edit_ops_amended.1 editCexWs "A" "Z" "" (by decide),
   by decide, by decide,
   taxonomy_edit_ops_amended.2.2.2.2.1 editCexWs "A" "Z" "" (by decide) (by decide),
   by decide,
   taxonomy_edit_ops_amended.2.2.2.2.2.1 editCexWs "B" (by decide) (by decide),
   by decide,
   taxonomy_edit_ops_amended.2.2.2.2.2.2.1 editCexWs "KB.A.X" "Z" (by decide)
     (by decide)⟩

/-- C2: the review state machine only moves along the allowed edges
pending to approved / rejected / ignored, rejected or ignored back to
pending, and approved to migrated for the Migration Engine only; a
successful transition changes nothing but the status; any other
attempted transition returns an explanatory error and produces no
mutated item; migrated is terminal: every transition from it and every
field edit of a migrated item is rejected. -/
theorem review_transitions (it : SpecModel.Item) (tgt : SpecModel.Status)
    (a : SpecModel.Actor) (t : SpecModel.Taxonomy) :
    (∀ it2, SpecModel.setStatus it tgt a = .ok it2 →
      SpecModel.allowedEdge it.status tgt a = true ∧
      it2 = { it with status := tgt }) ∧
    (SpecModel.allowedEdge it.status tgt a = false →
      ∃ e, SpecModel.setStatus it tgt a = .error e) ∧
    (it.status = .migrated →
      (∃ e, SpecModel.setStatus it tgt a = .error e) ∧
      (∀ pay, SpecModel.applyEdit t it pay = .error .immutable)) ∧
    (∀ s tg a2, SpecModel.allowedEdge s tg a2 = true ↔
      ((s = .pending ∧ (tg = .approved ∨ tg = .rejected ∨ tg = .ignored) ∧
        a2 = .reviewer) ∨
       ((s = .rejected ∨ s = .ignored) ∧ tg = .pending ∧ a2 = .reviewer) ∨
       (s = .approved ∧ tg = .migrated ∧ a2 = .migrationEngine))) ∧
    (∀ s, SpecModel.allowedEdge s .migrated .reviewer = false) := by
  refine ⟨?_, ?_, ?_, ?_, ?_⟩
  · intro it2 h
    unfold SpecModel.setStatus at h
    split at h
    · exact absurd h (by simp)
    · split at h
      · rename_i hedge
        exact ⟨hedge, by injection h with h2; exact h2.symm⟩
      · exact absurd h (by simp)
  · intro hedge
    unfold SpecModel.setStatus
    split
    · exact ⟨.immutable, rfl⟩
    · rw [hedge]
      exact ⟨.invalidTransition, by simp⟩
  · intro hmig
    constructor
    · exact ⟨.immutable, by unfold SpecModel.setStatus; rw [if_pos hmig]⟩
    · intro pay
      unfold SpecModel.applyEdit
      rw [if_pos hmig]
  · intro s tg a2
    cases s <;> cases tg <;> cases a2 <;> simp [SpecModel.allowedEdge]
  · intro s
    cases s <;> simp [SpecModel.allowedEdge]

/-- Witness for C2: a reviewer's attempt to edit or re-approve a
migrated item fails, while pending to approved succeeds. -/
theorem review_transitions_witness :
    (∃ e, SpecModel.setStatus itemMigratedX .approved .reviewer =
      Except.error e) ∧
    SpecModel.allowedEdge itemBase.status .approved .reviewer = true ∧
    SpecModel.setStatus itemBase .approved .reviewer =
      Except.ok { itemBase with status := .approved } :=
  ⟨((review_transitions itemMigratedX .approved .reviewer taxKB).2.2.1
      (by decide)).1,
   by decide, rfl⟩

/-- Per-id accounting of a bulk run: successes plus failures cover the
id list exactly, by induction over the processed ids. -/
theorem bulkGo_spec (ids : List Nat) (store : List SpecModel.Item)
    (tgt : SpecModel.Status) :
    (SpecModel.bulkGo store ids tgt).succeeded.length +
      (SpecModel.bulkGo store ids tgt).failures.length = ids.length ∧
    (∀ i ∈ ids, i ∈ (SpecModel.bulkGo store ids tgt).succeeded ∨
      i ∈ (SpecModel.bulkGo store ids tgt).failures.map Prod.fst) ∧
    (∀ i ∈ (SpecModel.bulkGo store ids tgt).succeeded, i ∈ ids) ∧
    (∀ p ∈ (SpecModel.bulkGo store ids tgt).failures, p.1 ∈ ids) := by
  induction ids generalizing store with
  | nil => simp [SpecModel.bulkGo]
  | cons id rest ih =>
    simp only [SpecModel.bulkGo]
    cases hf : store.find? (fun it => it.id == id) with
    | none =>
      dsimp only
      obtain ⟨ih1, ih2, ih3, ih4⟩ := ih store
      refine ⟨by simpa using by omega, ?_, ?_, ?_⟩
      · intro i hi
        rcases List.mem_cons.mp hi with rfl | hi
        · right; simp
        · rcases ih2 i hi with h | h
          · left; exact h
          · right; simp only [List.map_cons, List.mem_cons]; right; exact h
      · intro i hi
        exact List.mem_cons_of_mem _ (ih3 i hi)
      · intro p hp
        rcases List.mem_cons.mp hp with rfl | hp
        · simp
        · exact List.mem_cons_of_mem _ (ih4 p hp)
    | some it =>
      dsimp only
      cases hs : SpecModel.setStatus it tgt .reviewer with
      | ok it2 =>
        dsimp only
        obtain ⟨ih1, ih2, ih3, ih4⟩ :=
          ih (store.map fun x => if x.id == id then it2 else x)
        refine ⟨by simp only [List.length_cons]; omega, ?_, ?_, ?_⟩
        · intro i hi
          rcases List.mem_cons.mp hi with rfl | hi
          · left; simp
          · rcases ih2 i hi with h | h
            · left; exact List.mem_cons_of_mem _ h
            · right; exact h
        · intro i hi
          rcases List.mem_cons.mp hi with rfl | hi
          · simp
          · exact List.mem_cons_of_mem _ (ih3 i hi)
        · intro p hp
          exact List.mem_cons_of_mem _ (ih4 p hp)
      | error e =>
        dsimp only
        obtain ⟨ih1, ih2, ih3, ih4⟩ := ih store
        refine ⟨by simpa using by omega, ?_, ?_, ?_⟩
        · intro i hi
          rcases List.mem_cons.mp hi with rfl | hi
          · right; simp
          · rcases ih2 i hi with h | h
            · left; exact h
            · right; simp only [List.map_cons, List.mem_cons]; right; exact h
        · intro i hi
          exact List.mem_cons_of_mem _ (ih3 i hi)
        · intro p hp
          rcases List.mem_cons.mp hp with rfl | hp
          · simp
          · exact List.mem_cons_of_mem _ (ih4 p hp)

/-- C3: `bulkApply` accounts for every id: on N ids of which M fail the
per-id validity check it returns updated_count = N - M together with
exactly the M itemized (id, reason) failures; every processed id lands
in the successes or in the failures, failure ids come from the input,
and the function is total, so it never raises. -/
theorem bulkApply_accounts_every_id (store : List SpecModel.Item)
    (ids : List Nat) (tgt : SpecModel.Status) :
    (SpecModel.bulkApply store ids tgt).1.updated_count +
      (SpecModel.bulkApply store ids tgt).1.failures.length = ids.length ∧
    (SpecModel.bulkApply store ids tgt).1.updated_count =
      ids.length - (SpecModel.bulkApply store ids tgt).1.failures.length ∧
    (∀ i ∈ ids, i ∈ (SpecModel.bulkGo store ids tgt).succeeded ∨
      i ∈ (SpecModel.bulkApply store ids tgt).1.failures.map Prod.fst) ∧
    (∀ i ∈ (SpecModel.bulkGo store ids tgt).succeeded, i ∈ ids) ∧
    (∀ p ∈ (SpecModel.bulkApply store ids tgt).1.failures, p.1 ∈ ids) := by
  obtain ⟨h1, h2, h3, h4⟩ := bulkGo_spec ids store tgt
  have e1 : (SpecModel.bulkApply store ids tgt).1.updated_count =
      (SpecModel.bulkGo store ids tgt).succeeded.length := rfl
  have e2 : (SpecModel.bulkApply store ids tgt).1.failures =
      (SpecModel.bulkGo store ids tgt).failures := rfl
  exact ⟨h1, by rw [e1, e2]; omega, h2, h3, h4⟩

/-- Witness for C3 on a 3-id batch with one valid id, one migrated item
and one unknown id: one update, two itemized failures. -/
theorem bulkApply_accounts_every_id_witness :
    (SpecModel.bulkApply [itemBase, itemMigrated2] [1, 2, 3] .approved).1.updated_count +
      (SpecModel.bulkApply [itemBase, itemMigrated2] [1, 2, 3]
        .approved).1.failures.length = 3 ∧
    ((1 : Nat) ∈
      (SpecModel.bulkGo [itemBase, itemMigrated2] [1, 2, 3] .approved).succeeded ∨
      (1 : Nat) ∈ (SpecModel.bulkApply [itemBase, itemMigrated2] [1, 2, 3]
        .approved).1.failures.map Prod.fst) :=
  ⟨(bulkApply_accounts_every_id [itemBase, itemMigrated2] [1, 2, 3] .approved).1,
   (bulkApply_accounts_every_id [itemBase, itemMigrated2] [1, 2, 3]
     .approved).2.2.1 1 (by decide)⟩

/-- A non-approved item is left untouched by per-item migration. -/
theorem migrateItem_not_approved (root : String) (now : Nat)
    (fs : List SpecModel.FsEntry) (it : SpecModel.Item)
    (h : it.status ≠ SpecModel.Status.approved) :
    SpecModel.migrateItem root now fs it = (fs, it, none) := by
  unfold SpecModel.migrateItem
  rw [if_neg h]

/-- After per-item migration the resulting item is never approved: it is
either untouched non-approved or marked migrated. -/
theorem migrateItem_result_not_approved (root : String) (now : Nat)
    (fs : List SpecModel.FsEntry) (it : SpecModel.Item) :
    ((SpecModel.migrateItem root now fs it).2.1).status ≠
      SpecModel.Status.approved := by
  unfold SpecModel.migrateItem
  split
  · dsimp only
    split
    · split <;> simp [SpecModel.markMigrated]
    · simp [SpecModel.markMigrated]
  · rename_i h
    simpa using h

/-- A run over items none of which is approved copies nothing, plans
nothing and changes nothing. -/
theorem migrateGo_skip (root : String) (now : Nat)
    (fs : List SpecModel.FsEntry) (items : List SpecModel.Item)
    (h : ∀ it ∈ items, it.status ≠ SpecModel.Status.approved) :
    SpecModel.migrateGo root now fs items = (fs, items, []) := by
  induction items generalizing fs with
  | nil => rfl
  | cons it rest ih =>
    simp only [SpecModel.migrateGo]
    rw [migrateItem_not_approved root now fs it (h it (List.mem_cons_self it rest))]
    rw [ih fs (fun x hx => h x (List.mem_cons_of_mem _ hx))]
    rfl

/-- After a migration run no stored item is approved any more. -/
theorem migrateGo_items_not_approved (root : String) (now : Nat)
    (fs : List SpecModel.FsEntry) (items : List SpecModel.Item) :
    ∀ it2 ∈ (SpecModel.migrateGo root now fs items).2.1,
      it2.status ≠ SpecModel.Status.approved := by
  induction items generalizing fs with
  | nil => simp [SpecModel.migrateGo]
  | cons it rest ih =>
    intro it2 h2
    simp only [SpecModel.migrateGo] at h2
    rcases List.mem_cons.mp h2 with rfl | h2
    · exact migrateItem_result_not_approved root now fs it
    · exact ih _ it2 h2

/-- C4: `migrate` is idempotent: a second run on the state left by a
first run (at any later timestamp) re-copies no file, creates no new
destination and changes no item, because a run only processes items
currently approved and the first run left none approved; the second run
plans nothing and reports 0 migrated, so every item keeps exactly the
one destination the first run gave it. -/
theorem migrate_idempotent (root : String) (now now2 : Nat)
    (st : SpecModel.MigState) :
    SpecModel.migrate root now2 (SpecModel.migrate root now st) =
      SpecModel.migrate root now st ∧
    (SpecModel.migrateRun false root now2
      (SpecModel.migrate root now st)).1.plan = [] ∧
    (SpecModel.migrateRun false root now2
      (SpecModel.migrate root now st)).1.migrated = 0 := by
  have hitems : ∀ it2 ∈ (SpecModel.migrate root now st).items,
      it2.status ≠ SpecModel.Status.approved := by
    intro it2 h2
    exact migrateGo_items_not_approved root now st.fs st.items it2 h2
  have hrun := migrateGo_skip root now2 (SpecModel.migrate root now st).fs
    (SpecModel.migrate root now st).items hitems
  refine ⟨?_, ?_, ?_⟩
  · show (SpecModel.migrateRun false root now2 _).2 = _
    simp [SpecModel.migrateRun, hrun]
  · simp [SpecModel.migrateRun, hrun]
  · simp [SpecModel.migrateRun, hrun]

/-- The plan entry of per-item migration carries the item id exactly
when the item is approved. -/
theorem migrateItem_plan_toList (root : String) (now : Nat)
    (fs : List SpecModel.FsEntry) (it : SpecModel.Item) :
    ((SpecModel.migrateItem root now fs it).2.2).toList.map Prod.fst =
      if it.status = SpecModel.Status.approved then [it.id] else [] := by
  unfold SpecModel.migrateItem
  split
  · rename_i h
    dsimp only
    split
    · split <;> simp [h]
    · simp [h]
  · rename_i h
    simp [h]

/-- The destination plan lists exactly the approved items, in store
order. -/
theorem migrateGo_plan_ids (root : String) (now : Nat)
    (fs : List SpecModel.FsEntry) (items : List SpecModel.Item) :
    ((SpecModel.migrateGo root now fs items).2.2).map Prod.fst =
      (items.filter fun it => it.status == SpecModel.Status.approved).map
        SpecModel.Item.id := by
  induction items generalizing fs with
  | nil => rfl
  | cons it rest ih =>
    simp only [SpecModel.migrateGo, List.map_append, List.filter_cons]
    rw [migrateItem_plan_toList root now fs it, ih]
    by_cases h : it.status = SpecModel.Status.approved
    · simp [h]
    · simp [h]

/-- C5: on a non-empty approved set, `migrate(dry_run := true)` returns
the full destination plan (one entry per approved item, hence non-empty)
with migrated = 0, and changes nothing: the returned state, with its
item store and its filesystem, is the input state. -/
theorem migrate_dry_run_pure (root : String) (now : Nat)
    (st : SpecModel.MigState)
    (h : ∃ it ∈ st.items, it.status = SpecModel.Status.approved) :
    (SpecModel.migrateRun true root now st).2 = st ∧
    (SpecModel.migrateRun true root now st).1.migrated = 0 ∧
    ((SpecModel.migrateRun true root now st).1.plan).map Prod.fst =
      (st.items.filter fun it => it.status == SpecModel.Status.approved).map
        SpecModel.Item.id ∧
    (SpecModel.migrateRun true root now st).1.plan ≠ [] := by
  refine ⟨rfl, rfl, ?_, ?_⟩
  · exact migrateGo_plan_ids root now st.fs st.items
  · intro hnil
    obtain ⟨it, hit, hap⟩ := h
    have hplan := migrateGo_plan_ids root now st.fs st.items
    have he : (SpecModel.migrateRun true root now st).1.plan =
        (SpecModel.migrateGo root now st.fs st.items).2.2 := rfl
    rw [he] at hnil
    rw [hnil] at hplan
    simp only [List.map_nil] at hplan
    have hm : it ∈ st.items.filter
        (fun it => it.status == SpecModel.Status.approved) :=
      List.mem_filter.mpr ⟨hit, by simp [hap]⟩
    have : it.id ∈ (st.items.filter
        (fun it => it.status == SpecModel.Status.approved)).map
          SpecModel.Item.id := List.mem_map_of_mem _ hm
    rw [← hplan] at this
    simp at this

/-- Witness for C5 on a state with one approved item. -/
theorem migrate_dry_run_pure_witness :
    (∃ it ∈ stApproved.items, it.status = SpecModel.Status.approved) ∧
    (SpecModel.migrateRun true "/out" 0 stApproved).2 = stApproved ∧
    (SpecModel.migrateRun true "/out" 0 stApproved).1.migrated = 0 ∧
    (SpecModel.migrateRun true "/out" 0 stApproved).1.plan ≠ [] :=
  ⟨by decide, (migrate_dry_run_pure "/out" 0 stApproved (by decide)).1,
   (migrate_dry_run_pure "/out" 0 stApproved (by decide)).2.1,
   (migrate_dry_run_pure "/out" 0 stApproved (by decide)).2.2.2⟩

/-- Classification always establishes the DocumentItem invariant: the
confidence is clamped into [0,5] and the category either resolves or is
the fallback (with confidence 0). -/
theorem classify_inv (t : SpecModel.Taxonomy) (it : SpecModel.Item)
    (r : SpecModel.InferenceResult) :
    SpecModel.itemInv t (SpecModel.classify t it r) := by
  unfold SpecModel.classify SpecModel.itemInv SpecModel.clampConfidence
  split
  · rename_i h
    exact ⟨le_max_left _ _, max_le (by norm_num) (min_le_left _ _), Or.inl h⟩
  · exact ⟨le_refl 0, by norm_num, Or.inr rfl⟩

/-- A successful validated edit preserves the invariant: confidence is
not an editable field and a new category path is accepted only when it
resolves or equals the fallback. -/
theorem applyEdit_ok_inv (t : SpecModel.Taxonomy) (it : SpecModel.Item)
    (e : SpecModel.EditPayload) (it2 : SpecModel.Item)
    (hinv : SpecModel.itemInv t it)
    (h : SpecModel.applyEdit t it e = .ok it2) : SpecModel.itemInv t it2 := by
  unfold SpecModel.applyEdit at h
  split at h
  · exact absurd h (by simp)
  · split at h
    · exact absurd h (by simp)
    · cases hcp : e.categoryPath with
      | some p =>
        rw [hcp] at h
        dsimp only at h
        split at h
        · rename_i hval
          injection h with h2
          subst h2
          refine ⟨hinv.1, hinv.2.1, ?_⟩
          rcases (by simpa using hval : t.resolves p = true ∨ p = t.fallback) with
            hv | hv
          · exact Or.inl hv
          · exact Or.inr hv
        · exact absurd h (by simp)
      | none =>
        rw [hcp] at h
        dsimp only at h
        injection h with h2
        subst h2
        exact ⟨hinv.1, hinv.2.1, hinv.2.2⟩

/-- A successful status transition changes only the status and so
preserves the invariant. -/
theorem setStatus_ok_inv (t : SpecModel.Taxonomy) (it : SpecModel.Item)
    (tgt : SpecModel.Status) (a : SpecModel.Actor) (it2 : SpecModel.Item)
    (hinv : SpecModel.itemInv t it)
    (h : SpecModel.setStatus it tgt a = .ok it2) : SpecModel.itemInv t it2 := by
  unfold SpecModel.setStatus at h
  split at h
  · exact absurd h (by simp)
  · split at h
    · injection h with h2
      subst h2
      exact ⟨hinv.1, hinv.2.1, hinv.2.2⟩
    · exact absurd h (by simp)

/-- A bulk run preserves the invariant for every stored item. -/
theorem bulkGo_store_inv (t : SpecModel.Taxonomy) (ids : List Nat)
    (store : List SpecModel.Item) (tgt : SpecModel.Status)
    (h : ∀ it ∈ store, SpecModel.itemInv t it) :
    ∀ it2 ∈ (SpecModel.bulkGo store ids tgt).store, SpecModel.itemInv t it2 := by
  induction ids generalizing store with
  | nil => simpa [SpecModel.bulkGo] using h
  | cons id rest ih =>
    simp only [SpecModel.bulkGo]
    cases hf : store.find? (fun it => it.id == id) with
    | none =>
      dsimp only
      exact ih store h
    | some it =>
      dsimp only
      cases hs : SpecModel.setStatus it tgt .reviewer with
      | ok it2 =>
        dsimp only
        apply ih
        intro x hx
        obtain ⟨y, hy, hxy⟩ := List.mem_map.mp hx
        subst hxy
        by_cases hyid : (y.id == id) = true
        · rw [if_pos hyid]
          exact setStatus_ok_inv t it tgt .reviewer it2
            (h it (List.mem_of_find?_eq_some hf)) hs
        · rw [if_neg hyid]
          exact h y hy
      | error e =>
        dsimp only
        exact ih store h

/-- Per-item migration never touches confidence or category path, so it
preserves the invariant. -/
theorem migrateItem_item_inv (t : SpecModel.Taxonomy) (root : String)
    (now : Nat) (fs : List SpecModel.FsEntry) (it : SpecModel.Item)
    (hinv : SpecModel.itemInv t it) :
    SpecModel.itemInv t (SpecModel.migrateItem root now fs it).2.1 := by
  unfold SpecModel.migrateItem
  split
  · dsimp only
    split
    · split
      · exact ⟨hinv.1, hinv.2.1, hinv.2.2⟩
      · exact ⟨hinv.1, hinv.2.1, hinv.2.2⟩
    · exact ⟨hinv.1, hinv.2.1, hinv.2.2⟩
  · exact hinv

/-- A whole migration run preserves the invariant for every item. -/
theorem migrateGo_items_inv (t : SpecModel.Taxonomy) (root : String)
    (now : Nat) (fs : List SpecModel.FsEntry) (items : List SpecModel.Item)
    (h : ∀ it ∈ items, SpecModel.itemInv t it) :
    ∀ it2 ∈ (SpecModel.migrateGo root now fs items).2.1,
      SpecModel.itemInv t it2 := by
  induction items generalizing fs with
  | nil => simp [SpecModel.migrateGo]
  | cons it rest ih =>
    intro it2 h2
    simp only [SpecModel.migrateGo] at h2
    rcases List.mem_cons.mp h2 with rfl | h2
    · exact migrateItem_item_inv t root now fs it (h it (List.mem_cons_self it rest))
    · exact ih _ (fun x hx => h x (List.mem_cons_of_mem _ hx)) it2 h2

/-- C1: the DocumentItem invariant (confidence in [0,5]; category path
resolves in the taxonomy or equals the designated fallback) is
established by classification and preserved by every operation: a
validated review edit, a single status transition, a bulk action over
any id list, and a migration run (dry or real). -/
theorem documentItem_invariant_preserved (t : SpecModel.Taxonomy) :
    (∀ it r, SpecModel.itemInv t (SpecModel.classify t it r)) ∧
    (∀ it e it2, SpecModel.itemInv t it →
      SpecModel.applyEdit t it e = .ok it2 → SpecModel.itemInv t it2) ∧
    (∀ it tgt a it2, SpecModel.itemInv t it →
      SpecModel.setStatus it tgt a = .ok it2 → SpecModel.itemInv t it2) ∧
    (∀ store ids tgt, (∀ it ∈ store, SpecModel.itemInv t it) →
      ∀ it2 ∈ (SpecModel.bulkApply store ids tgt).2, SpecModel.itemInv t it2) ∧
    (∀ dr root now st, (∀ it ∈ st.items, SpecModel.itemInv t it) →
      ∀ it2 ∈ ((SpecModel.migrateRun dr root now st).2).items,
        SpecModel.itemInv t it2) := by
  refine ⟨classify_inv t, applyEdit_ok_inv t, setStatus_ok_inv t, ?_, ?_⟩
  · intro store ids tgt h
    exact bulkGo_store_inv t ids store tgt h
  · intro dr root now st h it2 h2
    cases dr
    · exact migrateGo_items_inv t root now st.fs st.items h it2 h2
    · exact h it2 h2

/-- Witness for C1: a hallucinated category is clamped to the fallback
with the invariant holding, and a bulk approval keeps the invariant for
the whole store. -/
theorem documentItem_invariant_preserved_witness :
    SpecModel.itemInv taxKB (SpecModel.classify taxKB itemBase infBad) ∧
    (∀ it ∈ [itemBase], SpecModel.itemInv taxKB it) ∧
    (∀ it2 ∈ (SpecModel.bulkApply [itemBase] [1] .approved).2,
      SpecModel.itemInv taxKB it2) :=
  ⟨(documentItem_invariant_preserved taxKB).1 itemBase infBad,
   by decide,
   (documentItem_invariant_preserved taxKB).2.2.2.1 [itemBase] [1] .approved
     (by decide)⟩
